import Mathlib

/-!
Shallow embedding of hound's WAV reader (`src/read.rs`) and proofs about it.

The byte source is modelled as a `List Nat` of bytes (each `< 256` in any
well-formed stream); reads return the value together with the unconsumed
suffix of the stream.  Machine integers are modelled as `Nat` with explicit
`% 2^16` / `% 2^32` where Rust's fixed-width arithmetic can wrap, and Rust
panics (integer division by zero) are modelled by an explicit `panic`
outcome of the result type.
-/

set_option maxHeartbeats 1000000

namespace Hound

/-- The error type of the library (`Error` in hound's `lib.rs`, outside
`src/read.rs`; its constructors are taken from the error taxonomy the spec
gives: format error with a human-readable reason, unsupported feature,
propagated I/O error, and sample-decode error). -/
inductive Error where
  | FormatError : String → Error
  | Unsupported : Error
  | IoError : Error
  | DecodeError : Error
deriving DecidableEq, Repr

/-- Result of a stateful read computation over a source of type `σ`:
either a value together with the rest of the source, an error, or a Rust
panic (integer division by zero). -/
inductive RRes (σ : Type) (α : Type) where
  | ok : α → σ → RRes σ α
  | err : Error → RRes σ α
  | panic : RRes σ α
deriving DecidableEq, Repr

/-- Result of a computation that does not hand back the source
(`WavReader::new` moves the reader into the returned struct;
`read_wave_format_pcm` does not read at all). -/
inductive PRes (α : Type) where
  | ok : α → PRes α
  | err : Error → PRes α
  | panic : PRes α
deriving DecidableEq, Repr

/-- Sequencing of read computations; mirrors Rust's `try!` chains. -/
def RRes.bind {σ α β : Type} (x : RRes σ α) (f : α → σ → RRes σ β) : RRes σ β :=
  match x with
  | .ok a s => f a s
  | .err e => .err e
  | .panic => .panic

@[simp] theorem RRes.bind_ok {σ α β : Type} (a : α) (s : σ) (f : α → σ → RRes σ β) :
    RRes.bind (.ok a s) f = f a s := rfl

@[simp] theorem RRes.bind_err {σ α β : Type} (e : Error) (f : α → σ → RRes σ β) :
    RRes.bind (σ := σ) (α := α) (.err e) f = .err e := rfl

@[simp] theorem RRes.bind_panic {σ α β : Type} (f : α → σ → RRes σ β) :
    RRes.bind (σ := σ) (α := α) .panic f = .panic := rfl

/-- Model of `ReadExt::read_bytes` / `read_into` specialised to the flat in-memory
source: reading `n` bytes succeeds exactly when the stream still holds `n`
bytes, and fails with an I/O error otherwise (the underlying reader reports
a short read).  The partial-read behaviour of `read_into` against a general
`io::Read` is modelled separately by `read_into` below. -/
def read_bytes (n : Nat) (s : List Nat) : RRes (List Nat) (List Nat) :=
  if n ≤ s.length then .ok (s.take n) (s.drop n) else .err .IoError

/-- Model of `ReadExt::read_le_u16`: two bytes, little endian, `(buf[1] << 8) | buf[0]`. -/
def read_le_u16 (s : List Nat) : RRes (List Nat) Nat :=
  (read_bytes 2 s).bind fun buf rest =>
    .ok (buf.getD 1 0 * 256 + buf.getD 0 0) rest

/-- Model of `ReadExt::read_le_u32`: four bytes, little endian. -/
def read_le_u32 (s : List Nat) : RRes (List Nat) Nat :=
  (read_bytes 4 s).bind fun buf rest =>
    .ok (buf.getD 3 0 * 16777216 + buf.getD 2 0 * 65536 +
         buf.getD 1 0 * 256 + buf.getD 0 0) rest

/-- Model of `ReadExt::read_le_i16`: bit-reinterpretation of the unsigned 16-bit read
as a signed integer. -/
def read_le_i16 (s : List Nat) : RRes (List Nat) Int :=
  (read_le_u16 s).bind fun x rest =>
    .ok (if x < 32768 then (x : Int) else (x : Int) - 65536) rest

/-- Little-endian encoding of a 16-bit value as two bytes. -/
def encodeU16 (x : Nat) : List Nat := [x % 256, x / 256]

/-- Little-endian encoding of a 32-bit value as four bytes. -/
def encodeU32 (x : Nat) : List Nat :=
  [x % 256, x / 256 % 256, x / 65536 % 256, x / 16777216]

@[simp] theorem encodeU16_length (x : Nat) : (encodeU16 x).length = 2 := rfl

@[simp] theorem encodeU32_length (x : Nat) : (encodeU32 x).length = 4 := rfl

@[simp] theorem read_bytes_append (bs tail : List Nat) :
    read_bytes bs.length (bs ++ tail) = .ok bs tail := by
  simp [read_bytes, List.take_left, List.drop_left]

theorem read_bytes_of_length_eq (bs : List Nat) (n : Nat) (tail : List Nat)
    (h : bs.length = n) : read_bytes n (bs ++ tail) = .ok bs tail := by
  subst h; exact read_bytes_append bs tail

@[simp] theorem read_le_u16_encode (x : Nat) (tail : List Nat) :
    read_le_u16 (encodeU16 x ++ tail) = .ok x tail := by
  have h2 : read_bytes 2 (encodeU16 x ++ tail) = .ok (encodeU16 x) tail :=
    read_bytes_of_length_eq (encodeU16 x) 2 tail (encodeU16_length x)
  simp only [read_le_u16, h2, RRes.bind_ok]
  have hv : (encodeU16 x).getD 1 0 * 256 + (encodeU16 x).getD 0 0 = x := by
    simp [encodeU16]
    omega
  rw [hv]

@[simp] theorem read_le_u32_encode (x : Nat) (tail : List Nat) :
    read_le_u32 (encodeU32 x ++ tail) = .ok x tail := by
  have h4 : read_bytes 4 (encodeU32 x ++ tail) = .ok (encodeU32 x) tail :=
    read_bytes_of_length_eq (encodeU32 x) 4 tail (encodeU32_length x)
  simp only [read_le_u32, h4, RRes.bind_ok]
  have hv : (encodeU32 x).getD 3 0 * 16777216 + (encodeU32 x).getD 2 0 * 65536 +
      (encodeU32 x).getD 1 0 * 256 + (encodeU32 x).getD 0 0 = x := by
    simp [encodeU32]
    omega
  rw [hv]

theorem read_bytes_length {n : Nat} {s bs rest : List Nat}
    (h : read_bytes n s = .ok bs rest) : rest.length + n = s.length := by
  unfold read_bytes at h
  split at h
  · cases h
    simp
    omega
  · cases h

theorem read_le_u16_length {s : List Nat} {x : Nat} {rest : List Nat}
    (h : read_le_u16 s = .ok x rest) : rest.length + 2 = s.length := by
  unfold read_le_u16 at h
  cases hb : read_bytes 2 s with
  | ok buf rest2 =>
      rw [hb] at h
      simp [RRes.bind] at h
      exact h.2 ▸ read_bytes_length hb
  | err e => rw [hb] at h; cases h
  | panic => rw [hb] at h; cases h

theorem read_le_u32_length {s : List Nat} {x : Nat} {rest : List Nat}
    (h : read_le_u32 s = .ok x rest) : rest.length + 4 = s.length := by
  unfold read_le_u32 at h
  cases hb : read_bytes 4 s with
  | ok buf rest2 =>
      rw [hb] at h
      simp [RRes.bind] at h
      exact h.2 ▸ read_bytes_length hb
  | err e => rw [hb] at h; cases h
  | panic => rw [hb] at h; cases h

/-- The `WavSpec` struct (defined in hound's `lib.rs`, shared data model per the spec):
channel count (u16), sample rate (u32) and number of valid bits per sample
(u16). -/
structure WavSpec where
  channels : Nat
  sample_rate : Nat
  bits_per_sample : Nat
deriving DecidableEq, Repr

/-- The `WavSpecEx` struct from `read.rs`: the stream spec plus the number of bytes
used to store one sample. -/
structure WavSpecEx where
  spec : WavSpec
  bytes_per_sample : Nat
deriving DecidableEq, Repr

/-- The `ChunkKind` enumeration from `read.rs`. -/
inductive ChunkKind where
  | Fmt : ChunkKind
  | Data : ChunkKind
  | Unknown : ChunkKind
deriving DecidableEq, Repr

/-- The `ChunkHeader` struct from `read.rs`: the kind and the declared length (u32). -/
structure ChunkHeader where
  kind : ChunkKind
  len : Nat
deriving DecidableEq, Repr

/-- The bytes of the ASCII tag `RIFF`. -/
def riffTag : List Nat := [82, 73, 70, 70]

/-- The bytes of the ASCII tag `WAVE`. -/
def waveTag : List Nat := [87, 65, 86, 69]

/-- The bytes of the ASCII tag `fmt ` (with trailing space). -/
def fmtTag : List Nat := [102, 109, 116, 32]

/-- The bytes of the ASCII tag `data`. -/
def dataTag : List Nat := [100, 97, 116, 97]

/-- Model of `WavReader::read_wave_header`: checks the `RIFF` tag, reads the file
length, checks the `WAVE` tag, and returns the file length. -/
def read_wave_header (s : List Nat) : RRes (List Nat) Nat :=
  (read_bytes 4 s).bind fun riff s =>
  if riff ≠ riffTag then .err (.FormatError "no RIFF tag found")
  else
    (read_le_u32 s).bind fun file_len s =>
    (read_bytes 4 s).bind fun wave s =>
    if wave ≠ waveTag then .err (.FormatError "no WAVE tag found")
    else .ok file_len s

/-- Model of `WavReader::read_chunk_header`: reads a 4-byte tag and a 4-byte
little-endian length, classifying the tag. -/
def read_chunk_header (s : List Nat) : RRes (List Nat) ChunkHeader :=
  (read_bytes 4 s).bind fun kind_str s =>
  (read_le_u32 s).bind fun len s =>
  let kind := if kind_str = fmtTag then ChunkKind.Fmt
              else if kind_str = dataTag then ChunkKind.Data
              else ChunkKind.Unknown
  .ok ⟨kind, len⟩ s

/-- Model of `WavReader::read_wave_format_pcm`: reads nothing; validates the chunk
length and the bits per sample, and fills in the bytes per sample. -/
def read_wave_format_pcm (chunk_len : Nat) (spec : WavSpec) : PRes WavSpecEx :=
  if chunk_len ≠ 16 then .err (.FormatError "unexpected fmt chunk size")
  else if spec.bits_per_sample ≠ 8 ∧ spec.bits_per_sample ≠ 16 then
    .err (.FormatError "bits per sample is not 8 or 16")
  else .ok ⟨spec, spec.bits_per_sample / 8⟩

/-- The 16 bytes of the `KSDATAFORMAT_SUBTYPE_PCM` GUID compared against in
`read_wave_format_extensible`. -/
def KSDATAFORMAT_SUBTYPE_PCM : List Nat :=
  [0x01, 0x00, 0x00, 0x00, 0x00, 0x00, 0x10, 0x00,
   0x80, 0x00, 0x00, 0xaa, 0x00, 0x38, 0x9b, 0x71]

/-- Model of `WavReader::read_wave_format_extensible`: validates the chunk length and
the `cbSize` field, reads the valid bits per sample, the channel mask (read
and discarded) and the sub-format GUID, and builds the `WavSpecEx` whose
valid width comes from the extension while the storage width comes from the
outer `bits_per_sample` field of `spec`. -/
def read_wave_format_extensible (chunk_len : Nat) (spec : WavSpec)
    (s : List Nat) : RRes (List Nat) WavSpecEx :=
  if chunk_len < 40 then .err (.FormatError "unexpected fmt chunk size")
  else
    (read_le_u16 s).bind fun cb_size s =>
    if cb_size ≠ 22 then .err (.FormatError "unexpected WAVEFORMATEXTENSIBLE size")
    else
      (read_le_u16 s).bind fun valid_bits_per_sample s =>
      (read_le_u32 s).bind fun _channel_mask s =>
      (read_bytes 16 s).bind fun subformat s =>
      if subformat ≠ KSDATAFORMAT_SUBTYPE_PCM then .err .Unsupported
      else
        .ok ⟨{ spec with bits_per_sample := valid_bits_per_sample },
             spec.bits_per_sample / 8⟩ s

/-- Model of `WavReader::read_fmt_chunk`: validates the chunk length, decodes the six
common fields, cross-validates the redundant fields, requires byte-aligned
storage widths, and dispatches on the format tag.

Rust semantics made explicit: `block_align / n_channels` is a `u16` division
that panics when `n_channels` is `0`, and the products `block_align /
n_channels * 8` (u16) and `block_align as u32 * n_samples_per_sec` (u32)
wrap on overflow, hence the `% 65536` and `% 4294967296`. -/
def read_fmt_chunk (chunk_len : Nat) (s : List Nat) : RRes (List Nat) WavSpecEx :=
  if chunk_len < 16 then .err (.FormatError "invalid fmt chunk size")
  else
    (read_le_u16 s).bind fun format_tag s =>
    (read_le_u16 s).bind fun n_channels s =>
    (read_le_u32 s).bind fun n_samples_per_sec s =>
    (read_le_u32 s).bind fun n_bytes_per_sec s =>
    (read_le_u16 s).bind fun block_align s =>
    (read_le_u16 s).bind fun bits_per_sample s =>
    if n_channels = 0 then .panic
    else if bits_per_sample ≠ block_align / n_channels * 8 % 65536
         ∨ n_bytes_per_sec ≠ block_align * n_samples_per_sec % 4294967296 then
      .err (.FormatError "inconsistent fmt chunk")
    else if bits_per_sample % 8 ≠ 0 then
      .err (.FormatError "bits per sample is not a multiple of 8")
    else
      let spec : WavSpec := ⟨n_channels, n_samples_per_sec, bits_per_sample⟩
      match format_tag with
      | 0x0001 =>
          match read_wave_format_pcm chunk_len spec with
          | .ok v => .ok v s
          | .err e => .err e
          | .panic => .panic
      | 0xfffe => read_wave_format_extensible chunk_len spec s
      | _ => .err .Unsupported

theorem RRes.bind_eq_ok {σ α β : Type} {x : RRes σ α} {f : α → σ → RRes σ β}
    {b : β} {s' : σ} (h : x.bind f = .ok b s') :
    ∃ a s1, x = .ok a s1 ∧ f a s1 = .ok b s' := by
  cases x with
  | ok a s1 => exact ⟨a, s1, rfl, h⟩
  | err e => cases h
  | panic => cases h

theorem read_chunk_header_length {s : List Nat} {hd : ChunkHeader} {rest : List Nat}
    (h : read_chunk_header s = .ok hd rest) : rest.length + 8 = s.length := by
  unfold read_chunk_header at h
  rcases RRes.bind_eq_ok h with ⟨ks, s1, h1, h2⟩
  rcases RRes.bind_eq_ok h2 with ⟨len, s2, h3, h4⟩
  simp only [RRes.ok.injEq] at h4
  have e1 := read_bytes_length h1
  have e3 := read_le_u32_length h3
  rw [← h4.2]
  omega

theorem read_wave_format_extensible_length {cl : Nat} {spec : WavSpec} {s : List Nat}
    {v : WavSpecEx} {rest : List Nat}
    (h : read_wave_format_extensible cl spec s = .ok v rest) :
    rest.length ≤ s.length := by
  unfold read_wave_format_extensible at h
  split at h
  · cases h
  · rcases RRes.bind_eq_ok h with ⟨cb, s1, h1, h2⟩
    split at h2
    · cases h2
    · rcases RRes.bind_eq_ok h2 with ⟨vb, s2, h3, h4⟩
      rcases RRes.bind_eq_ok h4 with ⟨mask, s3, h5, h6⟩
      rcases RRes.bind_eq_ok h6 with ⟨sub, s4, h7, h8⟩
      split at h8
      · cases h8
      · simp only [RRes.ok.injEq] at h8
        have e1 := read_le_u16_length h1
        have e2 := read_le_u16_length h3
        have e3 := read_le_u32_length h5
        have e4 := read_bytes_length h7
        rw [← h8.2]
        omega

theorem read_fmt_chunk_length {cl : Nat} {s : List Nat} {v : WavSpecEx}
    {rest : List Nat} (h : read_fmt_chunk cl s = .ok v rest) :
    rest.length ≤ s.length := by
  unfold read_fmt_chunk at h
  split at h
  · cases h
  · rcases RRes.bind_eq_ok h with ⟨t, s1, h1, h2⟩
    rcases RRes.bind_eq_ok h2 with ⟨c, s2, h3, h4⟩
    rcases RRes.bind_eq_ok h4 with ⟨sr, s3, h5, h6⟩
    rcases RRes.bind_eq_ok h6 with ⟨ab, s4, h7, h8⟩
    rcases RRes.bind_eq_ok h8 with ⟨ba, s5, h9, h10⟩
    rcases RRes.bind_eq_ok h10 with ⟨bps, s6, h11, h12⟩
    have e1 := read_le_u16_length h1
    have e2 := read_le_u16_length h3
    have e3 := read_le_u32_length h5
    have e4 := read_le_u32_length h7
    have e5 := read_le_u16_length h9
    have e6 := read_le_u16_length h11
    split at h12
    · cases h12
    · split at h12
      · cases h12
      · split at h12
        · cases h12
        · split at h12
          · -- PCM arm: the inner match on the pure result
            dsimp only at h12
            split at h12
            · simp only [RRes.ok.injEq] at h12
              rw [← h12.2]
              omega
            · cases h12
            · cases h12
          · -- Extensible arm
            dsimp only at h12
            have := read_wave_format_extensible_length h12
            omega
          · dsimp only at h12
            cases h12

/-- Model of `WavReader::read_until_data`: loop over chunk headers, remembering the
`fmt` chunk information, skipping unknown chunks, and stopping at the first
`data` chunk.  The loop-local `spec_opt` accumulator of the source is the
explicit first argument; the top-level call passes `none`. -/
def read_until_data (spec_opt : Option WavSpecEx) (s : List Nat) :
    RRes (List Nat) (WavSpecEx × Nat) :=
  match h1 : read_chunk_header s with
  | .err e => .err e
  | .panic => .panic
  | .ok header rest =>
    match header.kind with
    | ChunkKind.Fmt =>
      match h2 : read_fmt_chunk header.len rest with
      | .err e => .err e
      | .panic => .panic
      | .ok spec rest2 => read_until_data (some spec) rest2
    | ChunkKind.Data =>
      match spec_opt with
      | some spec => .ok (spec, header.len) rest
      | none => .err (.FormatError "missing fmt chunk")
    | ChunkKind.Unknown =>
      match h3 : read_bytes header.len rest with
      | .err e => .err e
      | .panic => .panic
      | .ok _ rest2 => read_until_data spec_opt rest2
termination_by s.length
decreasing_by
· have e1 := read_chunk_header_length h1
  have e2 := read_fmt_chunk_length h2
  omega
· have e1 := read_chunk_header_length h1
  have e3 := read_bytes_length h3
  omega

/-- Decoding a chunk header from a 4-byte tag followed by an encoded length. -/
theorem read_chunk_header_encode (tag4 : List Nat) (h4 : tag4.length = 4)
    (len : Nat) (tail : List Nat) :
    read_chunk_header (tag4 ++ encodeU32 len ++ tail) =
      .ok ⟨if tag4 = fmtTag then ChunkKind.Fmt
           else if tag4 = dataTag then ChunkKind.Data
           else ChunkKind.Unknown, len⟩ tail := by
  unfold read_chunk_header
  rw [List.append_assoc, read_bytes_of_length_eq tag4 4 (encodeU32 len ++ tail) h4,
      RRes.bind_ok, read_le_u32_encode, RRes.bind_ok]

/-- The loop stops at a data chunk once a fmt chunk has been remembered,
without consuming the chunk's content bytes. -/
theorem read_chunk_header_data (len : Nat) (tail : List Nat) :
    read_chunk_header (dataTag ++ encodeU32 len ++ tail) =
      .ok ⟨ChunkKind.Data, len⟩ tail := by
  have hk : (if dataTag = fmtTag then ChunkKind.Fmt
             else if dataTag = dataTag then ChunkKind.Data
             else ChunkKind.Unknown) = ChunkKind.Data := by decide
  rw [read_chunk_header_encode dataTag rfl len tail, hk]

theorem read_chunk_header_fmt (len : Nat) (tail : List Nat) :
    read_chunk_header (fmtTag ++ encodeU32 len ++ tail) =
      .ok ⟨ChunkKind.Fmt, len⟩ tail := by
  have hk : (if fmtTag = fmtTag then ChunkKind.Fmt
             else if fmtTag = dataTag then ChunkKind.Data
             else ChunkKind.Unknown) = ChunkKind.Fmt := by decide
  rw [read_chunk_header_encode fmtTag rfl len tail, hk]

theorem read_until_data_data_some (spec : WavSpecEx) (len : Nat) (tail : List Nat) :
    read_until_data (some spec) (dataTag ++ encodeU32 len ++ tail) =
      .ok (spec, len) tail := by
  conv_lhs => unfold read_until_data
  split <;> rename_i heq <;> rw [read_chunk_header_data len tail] at heq
  · exact RRes.noConfusion heq
  · exact RRes.noConfusion heq
  · injection heq with ih1 ih2
    subst ih2
    rw [← ih1]

/-- The loop fails on a data chunk when no fmt chunk has been seen. -/
theorem read_until_data_data_none (len : Nat) (tail : List Nat) :
    read_until_data none (dataTag ++ encodeU32 len ++ tail) =
      .err (.FormatError "missing fmt chunk") := by
  conv_lhs => unfold read_until_data
  split <;> rename_i heq <;> rw [read_chunk_header_data len tail] at heq
  · exact RRes.noConfusion heq
  · exact RRes.noConfusion heq
  · injection heq with ih1 ih2
    subst ih2
    rw [← ih1]

/-- The loop decodes a fmt chunk and continues with the remembered spec. -/
theorem read_until_data_fmt (spec_opt : Option WavSpecEx) (len : Nat)
    (body : List Nat) {spx : WavSpecEx} {rest2 : List Nat}
    (hf : read_fmt_chunk len body = .ok spx rest2) :
    read_until_data spec_opt (fmtTag ++ encodeU32 len ++ body) =
      read_until_data (some spx) rest2 := by
  conv_lhs => unfold read_until_data
  split <;> rename_i heq <;> rw [read_chunk_header_fmt len body] at heq
  · exact RRes.noConfusion heq
  · exact RRes.noConfusion heq
  · injection heq with ih1 ih2
    subst ih2
    rw [← ih1]
    dsimp only
    split <;> rename_i heq2 <;> rw [hf] at heq2
    · exact RRes.noConfusion heq2
    · exact RRes.noConfusion heq2
    · injection heq2 with j1 j2
      subst j1 j2
      rfl

/-- The `WavReader` state: the stream spec, the storage width, the total
and already-read sample counts, and the owned byte source (`reader`). -/
structure WavReaderState where
  spec : WavSpec
  bytes_per_sample : Nat
  num_samples : Nat
  samples_read : Nat
  source : List Nat
deriving DecidableEq, Repr

/-- Model of `WavReader::new`: read the RIFF WAVE header, scan until the data chunk,
derive the number of samples and validate it against the channel count.

Rust semantics made explicit: `data_len / spec_ex.bytes_per_sample as u32`
is an integer division that panics when the divisor is `0`, and
`num_samples % channels` likewise panics when `channels` is `0`. -/
def WavReader_new (s : List Nat) : PRes WavReaderState :=
  match read_wave_header s with
  | .err e => .err e
  | .panic => .panic
  | .ok _file_len s1 =>
    match read_until_data none s1 with
    | .err e => .err e
    | .panic => .panic
    | .ok (spec_ex, data_len) s2 =>
      if spec_ex.bytes_per_sample = 0 then .panic
      else
        let num_samples := data_len / spec_ex.bytes_per_sample
        if spec_ex.spec.channels = 0 then .panic
        else if num_samples % spec_ex.spec.channels ≠ 0 then
          .err (.FormatError "invalid data chunk length")
        else .ok ⟨spec_ex.spec, spec_ex.bytes_per_sample, num_samples, 0, s2⟩

/-- Model of `WavReader::spec`. -/
def WavReader_spec (r : WavReaderState) : WavSpec := r.spec

/-- Model of `WavReader::duration`: `num_samples / channels`. -/
def WavReader_duration (r : WavReaderState) : Nat :=
  r.num_samples / r.spec.channels

/-- Model of `WavReader::len`: `num_samples`. -/
def WavReader_len (r : WavReaderState) : Nat := r.num_samples

/-- Modelled from the spec: the sample-decode collaborator (`Sample::read`
of hound's `lib.rs`, not part of `src/`), instantiated at the signed 16-bit
target type used by the spec's end-to-end property: "decode one value of
type S, advancing the cursor by the type's natural width"; a requested
width other than the type's own is a decode error. -/
def sample_read (bits : Nat) (s : List Nat) : RRes (List Nat) Int :=
  if bits = 16 then read_le_i16 s
  else .err .DecodeError

/-- Model of `Iterator::next` on `WavSamples`: while `samples_read < num_samples`,
increment `samples_read` and decode one sample, yielding the decoded value
or the propagated error; otherwise signal exhaustion.  (The `panic` arm of
the decode is unreachable: the primitive readers never panic.) -/
def WavSamples_next (r : WavReaderState) :
    Option (Except Error Int) × WavReaderState :=
  if r.samples_read < r.num_samples then
    match sample_read r.spec.bits_per_sample r.source with
    | .ok v rest =>
        (some (.ok v), { r with samples_read := r.samples_read + 1, source := rest })
    | .err e => (some (.error e), { r with samples_read := r.samples_read + 1 })
    | .panic => (some (.error .IoError), { r with samples_read := r.samples_read + 1 })
  else (none, r)

/-- Model of `Iterator::size_hint` on `WavSamples`: exactly
`num_samples - samples_read`, as lower and upper bound. -/
def WavSamples_size_hint (r : WavReaderState) : Nat × Option Nat :=
  (r.num_samples - r.samples_read, some (r.num_samples - r.samples_read))

/-- Drive `WavSamples_next` up to `fuel` times, collecting every yielded
item and stopping at the first `none`. -/
def collectAux : Nat → WavReaderState → List (Except Error Int) × WavReaderState
  | 0, r => ([], r)
  | Nat.succ k, r =>
    match WavSamples_next r with
    | (none, r2) => ([], r2)
    | (some x, r2) =>
      let p := collectAux k r2
      (x :: p.1, p.2)

/-- Consume the sample sequence to exhaustion: the remaining count
`num_samples - samples_read` bounds the number of `next` calls that can
yield an item, so it is sufficient fuel. -/
def collectSamples (r : WavReaderState) :
    List (Except Error Int) × WavReaderState :=
  collectAux (r.num_samples - r.samples_read) r

/-- The reachable reader states: those produced by `WavReader::new` and
closed under the sample sequence's `next` — the only operation that
mutates the state. -/
inductive Reachable : WavReaderState → Prop where
  | init : ∀ s r, WavReader_new s = .ok r → Reachable r
  | step : ∀ r o r2, Reachable r → WavSamples_next r = (o, r2) → Reachable r2

/-- The 16-byte encoding of the six common fmt fields, in stream order:
format tag, channels, sample rate, average bytes per second, block align,
bits per sample. -/
def encode_fmt_fields (t c sr ab ba w : Nat) : List Nat :=
  encodeU16 t ++ encodeU16 c ++ encodeU32 sr ++ encodeU32 ab ++
  encodeU16 ba ++ encodeU16 w

theorem read_fmt_chunk_encode (cl t c sr ab ba w : Nat) (tail : List Nat)
    (hcl : 16 ≤ cl) :
    read_fmt_chunk cl (encode_fmt_fields t c sr ab ba w ++ tail) =
      (if c = 0 then .panic
       else if w ≠ ba / c * 8 % 65536 ∨ ab ≠ ba * sr % 4294967296 then
         .err (.FormatError "inconsistent fmt chunk")
       else if w % 8 ≠ 0 then
         .err (.FormatError "bits per sample is not a multiple of 8")
       else
         match t with
         | 0x0001 =>
             match read_wave_format_pcm cl ⟨c, sr, w⟩ with
             | .ok v => .ok v tail
             | .err e => .err e
             | .panic => .panic
         | 0xfffe => read_wave_format_extensible cl ⟨c, sr, w⟩ tail
         | _ => .err .Unsupported) := by
  unfold read_fmt_chunk
  rw [if_neg (by omega)]
  simp only [encode_fmt_fields, List.append_assoc, read_le_u16_encode,
    read_le_u32_encode, RRes.bind_ok]

theorem read_bytes_err {n : Nat} {s : List Nat} {e : Error}
    (h : read_bytes n s = .err e) : e = .IoError := by
  unfold read_bytes at h
  split at h
  · cases h
  · injection h with h1
    exact h1.symm

theorem read_le_u16_err {s : List Nat} {e : Error}
    (h : read_le_u16 s = .err e) : e = .IoError := by
  unfold read_le_u16 at h
  cases hb : read_bytes 2 s with
  | ok buf rest => rw [hb, RRes.bind_ok] at h; cases h
  | err e2 =>
      rw [hb, RRes.bind_err] at h
      injection h with h1
      rw [← h1]
      exact read_bytes_err hb
  | panic => rw [hb, RRes.bind_panic] at h; cases h

theorem read_le_u32_err {s : List Nat} {e : Error}
    (h : read_le_u32 s = .err e) : e = .IoError := by
  unfold read_le_u32 at h
  cases hb : read_bytes 4 s with
  | ok buf rest => rw [hb, RRes.bind_ok] at h; cases h
  | err e2 =>
      rw [hb, RRes.bind_err] at h
      injection h with h1
      rw [← h1]
      exact read_bytes_err hb
  | panic => rw [hb, RRes.bind_panic] at h; cases h

/-- The only format errors the extensible variant can raise are the two
chunk-size complaints; in particular it never raises
"inconsistent fmt chunk". -/
theorem read_wave_format_extensible_err {cl : Nat} {spec : WavSpec}
    {s : List Nat} {m : String}
    (h : read_wave_format_extensible cl spec s = .err (.FormatError m)) :
    m = "unexpected fmt chunk size" ∨ m = "unexpected WAVEFORMATEXTENSIBLE size" := by
  unfold read_wave_format_extensible at h
  split at h
  · injection h with h1
    injection h1 with h2
    exact Or.inl h2.symm
  · cases h1 : read_le_u16 s with
    | ok cb s1 =>
        rw [h1, RRes.bind_ok] at h
        split at h
        · injection h with h1
          injection h1 with h2
          exact Or.inr h2.symm
        · cases h2 : read_le_u16 s1 with
          | ok vb s2 =>
              rw [h2, RRes.bind_ok] at h
              cases h3 : read_le_u32 s2 with
              | ok mask s3 =>
                  rw [h3, RRes.bind_ok] at h
                  cases h4 : read_bytes 16 s3 with
                  | ok sub s4 =>
                      rw [h4, RRes.bind_ok] at h
                      split at h
                      · cases h
                      · cases h
                  | err e =>
                      rw [h4, RRes.bind_err] at h
                      injection h with h5
                      have h6 := read_bytes_err h4
                      rw [h5] at h6
                      cases h6
                  | panic => rw [h4, RRes.bind_panic] at h; cases h
              | err e =>
                  rw [h3, RRes.bind_err] at h
                  injection h with h5
                  have h6 := read_le_u32_err h3
                  rw [h5] at h6
                  cases h6
              | panic => rw [h3, RRes.bind_panic] at h; cases h
          | err e =>
              rw [h2, RRes.bind_err] at h
              injection h with h5
              have h6 := read_le_u16_err h2
              rw [h5] at h6
              cases h6
          | panic => rw [h2, RRes.bind_panic] at h; cases h
    | err e =>
        rw [h1, RRes.bind_err] at h
        injection h with h5
        have h6 := read_le_u16_err h1
        rw [h5] at h6
        cases h6
    | panic => rw [h1, RRes.bind_panic] at h; cases h

/-- The only format errors the PCM variant can raise are the chunk-size and
the bits-per-sample complaints. -/
theorem read_wave_format_pcm_err {cl : Nat} {spec : WavSpec} {m : String}
    (h : read_wave_format_pcm cl spec = .err (.FormatError m)) :
    m = "unexpected fmt chunk size" ∨ m = "bits per sample is not 8 or 16" := by
  unfold read_wave_format_pcm at h
  split at h
  · injection h with h1
    injection h1 with h2
    exact Or.inl h2.symm
  · split at h
    · injection h with h1
      injection h1 with h2
      exact Or.inr h2.symm
    · cases h

/-- Inversion of a successful `WavReader::new`: the state starts with
`samples_read = 0`, a nonzero channel count, and a sample count that is a
multiple of the channel count. -/
theorem WavReader_new_ok {s : List Nat} {r : WavReaderState}
    (h : WavReader_new s = .ok r) :
    r.samples_read = 0 ∧ r.spec.channels ≠ 0 ∧
    r.num_samples % r.spec.channels = 0 := by
  unfold WavReader_new at h
  split at h
  · cases h
  · cases h
  · split at h
    · cases h
    · cases h
    · dsimp only at h
      split at h
      · cases h
      · split at h
        · cases h
        · split at h
          · cases h
          · rename_i spec_ex data_len s2 hbytes hch hmod
            injection h with h1
            rw [← h1]
            refine ⟨rfl, hch, ?_⟩
            simpa using hmod

theorem WavSamples_next_of_lt {r : WavReaderState}
    (h : r.samples_read < r.num_samples) :
    ((WavSamples_next r).1.isSome = true) ∧
    (WavSamples_next r).2.samples_read = r.samples_read + 1 ∧
    (WavSamples_next r).2.num_samples = r.num_samples ∧
    (WavSamples_next r).2.spec = r.spec ∧
    (WavSamples_next r).2.bytes_per_sample = r.bytes_per_sample := by
  unfold WavSamples_next
  rw [if_pos h]
  cases hs : sample_read r.spec.bits_per_sample r.source <;> simp

theorem WavSamples_next_of_ge {r : WavReaderState}
    (h : ¬ r.samples_read < r.num_samples) :
    WavSamples_next r = (none, r) := by
  unfold WavSamples_next
  rw [if_neg h]

theorem WavSamples_next_preserves {r : WavReaderState} {o : Option (Except Error Int)}
    {r2 : WavReaderState} (hx : WavSamples_next r = (o, r2)) :
    r2.spec = r.spec ∧ r2.num_samples = r.num_samples ∧
    r2.bytes_per_sample = r.bytes_per_sample := by
  unfold WavSamples_next at hx
  split at hx
  · split at hx <;> (injection hx with h1 h2; subst h2; exact ⟨rfl, rfl, rfl⟩)
  · injection hx with h1 h2
    subst h2
    exact ⟨rfl, rfl, rfl⟩

theorem WavSamples_next_mono {r : WavReaderState}
    (h : r.samples_read ≤ r.num_samples) :
    ∀ o r2, WavSamples_next r = (o, r2) →
      r.samples_read ≤ r2.samples_read ∧ r2.num_samples = r.num_samples ∧
      r2.samples_read ≤ r2.num_samples := by
  intro o r2 hx
  by_cases hlt : r.samples_read < r.num_samples
  · obtain ⟨_, hsr, hnum, _, _⟩ := WavSamples_next_of_lt hlt
    rw [hx] at hsr hnum
    dsimp only at hsr hnum
    omega
  · rw [WavSamples_next_of_ge hlt] at hx
    injection hx with h1 h2
    subst h2
    omega

theorem collectAux_spec : ∀ (k : Nat) (r : WavReaderState),
    r.num_samples - r.samples_read = k → r.samples_read ≤ r.num_samples →
    (collectAux k r).1.length = k ∧
    (collectAux k r).2.samples_read = r.num_samples ∧
    (collectAux k r).2.num_samples = r.num_samples := by
  intro k
  induction k with
  | zero =>
      intro r hk hle
      refine ⟨rfl, ?_, rfl⟩
      show r.samples_read = r.num_samples
      omega
  | succ n ih =>
      intro r hk hle
      have hlt : r.samples_read < r.num_samples := by omega
      obtain ⟨hsome, hsr, hnum, hspec, hbytes⟩ := WavSamples_next_of_lt hlt
      rcases hx : WavSamples_next r with ⟨o, r2⟩
      rw [hx] at hsome hsr hnum
      dsimp only at hsome hsr hnum
      cases o with
      | none => simp at hsome
      | some x =>
          have h2 : collectAux (n + 1) r =
              (x :: (collectAux n r2).1, (collectAux n r2).2) := by
            show (match WavSamples_next r with
              | (none, r2) => ([], r2)
              | (some x, r2) =>
                let p := collectAux n r2
                (x :: p.1, p.2)) = _
            rw [hx]
          have hrec := ih r2 (by omega) (by omega)
          rw [hnum] at hrec
          simp only [h2]
          exact ⟨by simp [hrec.1], hrec.2.1, hrec.2.2⟩

/-- Invariant carried along all reachable states: nonzero channel count and
sample count divisible by the channel count. -/
theorem reachable_channels {r : WavReaderState} (h : Reachable r) :
    r.spec.channels ≠ 0 ∧ r.num_samples % r.spec.channels = 0 := by
  induction h with
  | init s r hnew =>
      exact ⟨(WavReader_new_ok hnew).2.1, (WavReader_new_ok hnew).2.2⟩
  | step r o r2 hr hx ih =>
      obtain ⟨hspec, hnum, _⟩ := WavSamples_next_preserves hx
      rw [hspec, hnum]
      exact ih

/-- Invariant carried along all reachable states: the read position never
exceeds the sample count. -/
theorem reachable_le {r : WavReaderState} (h : Reachable r) :
    r.samples_read ≤ r.num_samples := by
  induction h with
  | init s r hnew =>
      have h0 := (WavReader_new_ok hnew).1
      omega
  | step r o r2 hr hx ih =>
      exact (WavSamples_next_mono ih o r2 hx).2.2

theorem read_wave_header_encode (fl : Nat) (rest : List Nat) :
    read_wave_header (riffTag ++ encodeU32 fl ++ waveTag ++ rest) =
      .ok fl rest := by
  unfold read_wave_header
  rw [List.append_assoc, List.append_assoc,
      read_bytes_of_length_eq riffTag 4 (encodeU32 fl ++ (waveTag ++ rest)) rfl,
      RRes.bind_ok, if_neg (by decide), read_le_u32_encode, RRes.bind_ok,
      read_bytes_of_length_eq waveTag 4 rest rfl, RRes.bind_ok, if_neg (by decide)]

/-- Evaluation of `WavReader::new` once the header read and the chunk scan
are known. -/
theorem WavReader_new_eval {s : List Nat} {fl : Nat} {s1 : List Nat}
    {spx : WavSpecEx} {dlen : Nat} {s2 : List Nat}
    (hw : read_wave_header s = .ok fl s1)
    (hd : read_until_data none s1 = .ok (spx, dlen) s2) :
    WavReader_new s =
      (if spx.bytes_per_sample = 0 then .panic
       else if spx.spec.channels = 0 then .panic
       else if dlen / spx.bytes_per_sample % spx.spec.channels ≠ 0 then
         .err (.FormatError "invalid data chunk length")
       else .ok ⟨spx.spec, spx.bytes_per_sample, dlen / spx.bytes_per_sample,
                 0, s2⟩) := by
  unfold WavReader_new
  rw [hw]
  dsimp only
  rw [hd]

/-- One call to the underlying `io::Read::read` with a buffer of `m` free
bytes: the source delivers its currently available bytes, at most `m` of
them; an exhausted or stalled source delivers zero bytes (Rust's `Ok(0)`).
The source is modelled as the list of byte blocks successive calls can
deliver. -/
def read_step (m : Nat) (σ : List (List Nat)) : List Nat × List (List Nat) :=
  match σ with
  | [] => ([], [])
  | b :: rest => if b.length ≤ m then (b, rest) else (b.take m, b.drop m :: rest)

/-- Model of `ReadExt::read_into` against a general `io::Read`: keep issuing `read`
calls until the buffer is full, accumulating partial reads; fail with an
I/O error as soon as a call makes zero progress. -/
def read_into (n : Nat) (σ : List (List Nat)) : RRes (List (List Nat)) (List Nat) :=
  if h0 : n = 0 then .ok [] σ
  else
    if hl : (read_step n σ).1.length = 0 then .err .IoError
    else
      match read_into (n - (read_step n σ).1.length) (read_step n σ).2 with
      | .ok bs σ2 => .ok ((read_step n σ).1 ++ bs) σ2
      | .err e => .err e
      | .panic => .panic
termination_by n
decreasing_by
  omega

theorem read_into_unfold (n : Nat) (σ : List (List Nat)) :
    read_into n σ =
      if n = 0 then .ok [] σ
      else
        if (read_step n σ).1.length = 0 then .err .IoError
        else
          match read_into (n - (read_step n σ).1.length) (read_step n σ).2 with
          | .ok bs σ2 => .ok ((read_step n σ).1 ++ bs) σ2
          | .err e => .err e
          | .panic => .panic := by
  by_cases h0 : n = 0
  · conv_lhs => unfold read_into
    rw [dif_pos h0, if_pos h0]
  · conv_lhs => unfold read_into
    rw [dif_neg h0, if_neg h0]
    by_cases hl : (read_step n σ).1.length = 0
    · rw [dif_pos hl, if_pos hl]
    · rw [dif_neg hl, if_neg hl]

theorem read_step_le (m : Nat) (σ : List (List Nat)) :
    (read_step m σ).1.length ≤ m := by
  unfold read_step
  split
  · simp
  · split <;> rename_i hb
    · simpa using hb
    · simp

/-- The function `read_into` either fills the buffer exactly or reports an I/O error;
it never panics. -/
theorem read_into_dichotomy : ∀ (n : Nat) (σ : List (List Nat)),
    (∃ bs σ2, read_into n σ = .ok bs σ2 ∧ bs.length = n) ∨
    read_into n σ = .err .IoError := by
  intro n
  induction n using Nat.strong_induction_on with
  | _ n ih =>
      intro σ
      rw [read_into_unfold]
      by_cases h0 : n = 0
      · rw [if_pos h0]
        exact Or.inl ⟨[], σ, rfl, h0.symm⟩
      · rw [if_neg h0]
        by_cases hl : (read_step n σ).1.length = 0
        · rw [if_pos hl]
          exact Or.inr rfl
        · rw [if_neg hl]
          have hle := read_step_le n σ
          have hdec : n - (read_step n σ).1.length < n := by omega
          rcases ih _ hdec (read_step n σ).2 with ⟨bs, σ2, hok, hlen⟩ | herr
          · rw [hok]
            refine Or.inl ⟨(read_step n σ).1 ++ bs, σ2, rfl, ?_⟩
            simp [hlen]
            omega
          · rw [herr]
            exact Or.inr rfl

theorem read_into_ok_length : ∀ (n : Nat) (σ : List (List Nat))
    (bs : List Nat) (σ2 : List (List Nat)),
    read_into n σ = .ok bs σ2 → bs.length = n := by
  intro n
  induction n using Nat.strong_induction_on with
  | _ n ih =>
      intro σ bs σ2 h
      rw [read_into_unfold] at h
      by_cases h0 : n = 0
      · rw [if_pos h0] at h
        injection h with h1 h2
        rw [← h1, h0]
        rfl
      · rw [if_neg h0] at h
        by_cases hl : (read_step n σ).1.length = 0
        · rw [if_pos hl] at h
          cases h
        · rw [if_neg hl] at h
          have hle := read_step_le n σ
          have hdec : n - (read_step n σ).1.length < n := by omega
          cases hr : read_into (n - (read_step n σ).1.length) (read_step n σ).2 with
          | ok bs2 σ3 =>
              rw [hr] at h
              injection h with h1 h2
              have := ih _ hdec _ _ _ hr
              rw [← h1]
              simp [this]
              omega
          | err e => rw [hr] at h; cases h
          | panic => rw [hr] at h; cases h

theorem read_into_stall {n : Nat} {σ : List (List Nat)} (h0 : 0 < n)
    (hstall : (read_step n σ).1.length = 0) :
    read_into n σ = .err .IoError := by
  rw [read_into_unfold, if_neg (by omega), if_pos hstall]

theorem read_wave_format_extensible_encode (chunk_len : Nat) (spec : WavSpec)
    (cb vb mask : Nat) (guid tail : List Nat) (hguid : guid.length = 16)
    (hcl : 40 ≤ chunk_len) :
    read_wave_format_extensible chunk_len spec
        (encodeU16 cb ++ encodeU16 vb ++ encodeU32 mask ++ guid ++ tail) =
      (if cb ≠ 22 then .err (.FormatError "unexpected WAVEFORMATEXTENSIBLE size")
       else if guid ≠ KSDATAFORMAT_SUBTYPE_PCM then .err .Unsupported
       else .ok ⟨{ spec with bits_per_sample := vb },
                 spec.bits_per_sample / 8⟩ tail) := by
  unfold read_wave_format_extensible
  rw [if_neg (by omega)]
  simp only [List.append_assoc]
  rw [read_le_u16_encode, RRes.bind_ok]
  by_cases h22 : cb ≠ 22
  · rw [if_pos h22, if_pos h22]
  · rw [if_neg h22, if_neg h22, read_le_u16_encode, RRes.bind_ok,
        read_le_u32_encode, RRes.bind_ok,
        read_bytes_of_length_eq guid 16 tail hguid, RRes.bind_ok]

/-- The 16-bit mono PCM fmt body of the spec's end-to-end example. -/
def fmtBody16 : List Nat := encode_fmt_fields 1 1 44100 88200 2 16

/-- The data-chunk content bytes of the spec's end-to-end example:
`[2, -3, 5, -7]` as little-endian signed 16-bit values. -/
def goodSamples : List Nat := [2, 0, 253, 255, 5, 0, 249, 255]

/-- A complete well-formed 16-bit mono PCM stream. -/
def goodStream : List Nat :=
  riffTag ++ encodeU32 36 ++ waveTag ++
  (fmtTag ++ encodeU32 16 ++ (fmtBody16 ++ (dataTag ++ encodeU32 8 ++ goodSamples)))

/-- The reader state `WavReader::new` produces on `goodStream`. -/
def goodReader : WavReaderState := ⟨⟨1, 44100, 16⟩, 2, 4, 0, goodSamples⟩

theorem good_hw : read_wave_header goodStream =
    .ok 36 (fmtTag ++ encodeU32 16 ++ (fmtBody16 ++ (dataTag ++ encodeU32 8 ++ goodSamples))) := by
  unfold goodStream
  exact read_wave_header_encode 36 _

theorem good_hd : read_until_data none
    (fmtTag ++ encodeU32 16 ++ (fmtBody16 ++ (dataTag ++ encodeU32 8 ++ goodSamples))) =
    .ok (⟨⟨1, 44100, 16⟩, 2⟩, 8) goodSamples := by
  have hf : read_fmt_chunk 16 (fmtBody16 ++ (dataTag ++ encodeU32 8 ++ goodSamples)) =
      .ok ⟨⟨1, 44100, 16⟩, 2⟩ (dataTag ++ encodeU32 8 ++ goodSamples) := by decide
  rw [read_until_data_fmt none 16 _ hf, read_until_data_data_some]

theorem WavReader_new_good : WavReader_new goodStream = .ok goodReader := by
  rw [WavReader_new_eval good_hw good_hd]
  decide

/-- The extensible fmt chunk body whose outer bits-per-sample is zero: it
passes every validation (`block_align = 0`, one channel) and produces
`bytes_per_sample = 0`. -/
def zeroBitsFmtBody : List Nat :=
  encode_fmt_fields 0xfffe 1 1 0 0 0 ++
  (encodeU16 22 ++ encodeU16 8 ++ encodeU32 0 ++ KSDATAFORMAT_SUBTYPE_PCM)

/-- A complete stream around `zeroBitsFmtBody` with an empty data chunk. -/
def zeroBitsStream : List Nat :=
  riffTag ++ encodeU32 0 ++ waveTag ++
  (fmtTag ++ encodeU32 40 ++
    (zeroBitsFmtBody ++ (dataTag ++ encodeU32 0 ++ ([] : List Nat))))

/-- The extensible fmt chunk body in which `block_align / n_channels * 8`
overflows `u16` (8192 / 1 * 8 = 65536 ≡ 0), so the stored
`bits_per_sample = 0` passes the cross-validation that the spec's
mathematical reading would reject. -/
def overflowFmtBody : List Nat :=
  encode_fmt_fields 0xfffe 1 1 8192 8192 0 ++
  (encodeU16 22 ++ encodeU16 8 ++ encodeU32 0 ++ KSDATAFORMAT_SUBTYPE_PCM)

/-- C1: dispatched on format tag 0xFFFE, the reader fails with a
`FormatError` when the declared length is below 40 or the `cbSize` field is
not 22, fails with `Unsupported` when the sub-format GUID is not the
canonical PCM GUID, and otherwise returns a `WavSpecEx` whose
`bits_per_sample` is the valid-bits field from the extension while
`bytes_per_sample` is the outer bits-per-sample divided by 8. -/
theorem extensible_fmt_spec (chunk_len : Nat) (spec : WavSpec)
    (cb vb mask : Nat) (guid tail : List Nat)
    (hcb : cb < 65536) (hvb : vb < 65536) (hmask : mask < 4294967296)
    (hguid : guid.length = 16) :
    (chunk_len < 40 → ∀ s, read_wave_format_extensible chunk_len spec s =
        .err (.FormatError "unexpected fmt chunk size")) ∧
    (40 ≤ chunk_len → cb ≠ 22 →
      read_wave_format_extensible chunk_len spec
          (encodeU16 cb ++ encodeU16 vb ++ encodeU32 mask ++ guid ++ tail) =
        .err (.FormatError "unexpected WAVEFORMATEXTENSIBLE size")) ∧
    (40 ≤ chunk_len → cb = 22 → guid ≠ KSDATAFORMAT_SUBTYPE_PCM →
      read_wave_format_extensible chunk_len spec
          (encodeU16 cb ++ encodeU16 vb ++ encodeU32 mask ++ guid ++ tail) =
        .err .Unsupported) ∧
    (40 ≤ chunk_len → cb = 22 → guid = KSDATAFORMAT_SUBTYPE_PCM →
      read_wave_format_extensible chunk_len spec
          (encodeU16 cb ++ encodeU16 vb ++ encodeU32 mask ++ guid ++ tail) =
        .ok ⟨{ spec with bits_per_sample := vb }, spec.bits_per_sample / 8⟩ tail) := by
  refine ⟨?_, ?_, ?_, ?_⟩
  · intro hlt s
    unfold read_wave_format_extensible
    rw [if_pos hlt]
  · intro hcl h22
    rw [read_wave_format_extensible_encode chunk_len spec cb vb mask guid tail hguid hcl,
        if_pos h22]
  · intro hcl h22 hg
    rw [read_wave_format_extensible_encode chunk_len spec cb vb mask guid tail hguid hcl,
        if_neg (by omega), if_pos hg]
  · intro hcl h22 hg
    rw [read_wave_format_extensible_encode chunk_len spec cb vb mask guid tail hguid hcl,
        if_neg (by omega), if_neg (by simp [hg])]

/-- C1 witness: a concrete extensible chunk with 20 valid bits stored in
32-bit samples decodes successfully. -/
theorem extensible_fmt_spec_witness :
    read_wave_format_extensible 40 ⟨2, 8000, 32⟩
        (encodeU16 22 ++ encodeU16 20 ++ encodeU32 0 ++ KSDATAFORMAT_SUBTYPE_PCM ++ []) =
      .ok ⟨{ (⟨2, 8000, 32⟩ : WavSpec) with bits_per_sample := 20 }, 32 / 8⟩ [] :=
  (extensible_fmt_spec 40 ⟨2, 8000, 32⟩ 22 20 0 KSDATAFORMAT_SUBTYPE_PCM []
      (by decide) (by decide) (by decide) (by decide)).2.2.2 (by decide) rfl rfl

/-- C2 (amended): with a nonzero channel count, after the six common fields
are decoded, the reader fails with `FormatError "inconsistent fmt chunk"`
exactly when the stored bits-per-sample differs from
`block_align / channels * 8` computed in wrapping 16-bit arithmetic or the
average byte rate differs from `block_align * sample_rate` computed in
wrapping 32-bit arithmetic; and it fails with some `FormatError` whenever
the bits-per-sample is not a multiple of 8. -/
theorem fmt_chunk_cross_validation (cl t c sr ab ba w : Nat) (tail : List Nat)
    (hcl : 16 ≤ cl) (hc0 : c ≠ 0) (ht : t < 65536) (hc : c < 65536)
    (hsr : sr < 4294967296) (hab : ab < 4294967296) (hba : ba < 65536)
    (hw : w < 65536) :
    (read_fmt_chunk cl (encode_fmt_fields t c sr ab ba w ++ tail) =
        .err (.FormatError "inconsistent fmt chunk") ↔
      (w ≠ ba / c * 8 % 65536 ∨ ab ≠ ba * sr % 4294967296)) ∧
    (w % 8 ≠ 0 →
      ∃ m, read_fmt_chunk cl (encode_fmt_fields t c sr ab ba w ++ tail) =
        .err (.FormatError m)) := by
  rw [read_fmt_chunk_encode cl t c sr ab ba w tail hcl, if_neg hc0]
  by_cases hcond : (w ≠ ba / c * 8 % 65536 ∨ ab ≠ ba * sr % 4294967296)
  · rw [if_pos hcond]
    exact ⟨⟨fun _ => hcond, fun _ => rfl⟩, fun _ => ⟨_, rfl⟩⟩
  · rw [if_neg hcond]
    constructor
    · constructor
      · intro h
        exfalso
        by_cases h8 : w % 8 ≠ 0
        · rw [if_pos h8] at h
          injection h with h1
          injection h1 with h2
          exact absurd h2 (by decide)
        · rw [if_neg h8] at h
          split at h
          · -- format tag 0x0001
            split at h <;> rename_i hp
            · exact RRes.noConfusion h
            · injection h with h1
              rw [h1] at hp
              rcases read_wave_format_pcm_err hp with h' | h' <;>
                exact absurd h' (by decide)
            · exact RRes.noConfusion h
          · -- format tag 0xfffe
            rcases read_wave_format_extensible_err h with h' | h' <;>
              exact absurd h' (by decide)
          · -- any other tag
            injection h with h1
            exact Error.noConfusion h1
      · intro hcond2
        exact absurd hcond2 hcond
    · intro h8
      rw [if_pos h8]
      exact ⟨_, rfl⟩

/-- C2 witness: a consistent 16-bit mono PCM fmt chunk triggers neither
failure. -/
theorem fmt_chunk_cross_validation_witness :
    (read_fmt_chunk 16 (encode_fmt_fields 1 1 44100 88200 2 16 ++ []) =
        .err (.FormatError "inconsistent fmt chunk") ↔
      ((16 : Nat) ≠ 2 / 1 * 8 % 65536 ∨ (88200 : Nat) ≠ 2 * 44100 % 4294967296)) ∧
    ((16 : Nat) % 8 ≠ 0 →
      ∃ m, read_fmt_chunk 16 (encode_fmt_fields 1 1 44100 88200 2 16 ++ []) =
        .err (.FormatError m)) :=
  fmt_chunk_cross_validation 16 1 1 44100 88200 2 16 [] (by decide) (by decide)
    (by decide) (by decide) (by decide) (by decide) (by decide) (by decide)

/-- C2 counterexample: with `block_align = 8192` and one channel the product
`block_align / channels * 8` overflows `u16` to `0`, so the code accepts a
chunk the claim's exact arithmetic (`bits_per_sample ≠ (block_align /
channels) * 8`, here `0 ≠ 65536`) says must fail with
`FormatError "inconsistent fmt chunk"`. -/
theorem fmt_chunk_cross_validation_cex :
    ¬ (read_fmt_chunk 40 overflowFmtBody =
        .err (.FormatError "inconsistent fmt chunk") ↔
      ((0 : Nat) ≠ 8192 / 1 * 8 ∨ (8192 : Nat) ≠ 8192 * 1)) := by decide

/-- C8: dispatched on format tag 0x0001, the reader fails with a
`FormatError` when the declared chunk length is not exactly 16 or the
bits-per-sample is neither 8 nor 16, and otherwise returns the spec with
`bytes_per_sample = bits_per_sample / 8`; a fmt chunk whose format tag is
neither 0x0001 nor 0xFFFE fails with `Unsupported`. -/
theorem pcm_fmt_spec :
    (∀ chunk_len spec, chunk_len ≠ 16 →
      read_wave_format_pcm chunk_len spec =
        .err (.FormatError "unexpected fmt chunk size")) ∧
    (∀ spec : WavSpec, spec.bits_per_sample ≠ 8 → spec.bits_per_sample ≠ 16 →
      read_wave_format_pcm 16 spec =
        .err (.FormatError "bits per sample is not 8 or 16")) ∧
    (∀ spec : WavSpec, spec.bits_per_sample = 8 ∨ spec.bits_per_sample = 16 →
      read_wave_format_pcm 16 spec = .ok ⟨spec, spec.bits_per_sample / 8⟩) ∧
    (∀ cl t c sr ab ba w tail, 16 ≤ cl → t < 65536 → c < 65536 →
      sr < 4294967296 → ab < 4294967296 → ba < 65536 → w < 65536 →
      c ≠ 0 → w = ba / c * 8 % 65536 → ab = ba * sr % 4294967296 → w % 8 = 0 →
      t ≠ 0x0001 → t ≠ 0xfffe →
      read_fmt_chunk cl (encode_fmt_fields t c sr ab ba w ++ tail) =
        .err .Unsupported) := by
  refine ⟨?_, ?_, ?_, ?_⟩
  · intro chunk_len spec hne
    unfold read_wave_format_pcm
    rw [if_pos hne]
  · intro spec h8 h16
    unfold read_wave_format_pcm
    rw [if_neg (by omega), if_pos ⟨h8, h16⟩]
  · intro spec hor
    unfold read_wave_format_pcm
    rw [if_neg (by omega), if_neg (by omega)]
  · intro cl t c sr ab ba w tail hcl ht hc hsr hab hba hwb hc0 hw hab2 h8 ht1 htf
    rw [read_fmt_chunk_encode cl t c sr ab ba w tail hcl, if_neg hc0,
        if_neg (by omega), if_neg (by omega)]
    split
    · omega
    · omega
    · rfl

/-- C8 witness: a 16-bit mono PCM chunk succeeds, and an A-law tag (0x0006)
is rejected as unsupported. -/
theorem pcm_fmt_spec_witness :
    read_wave_format_pcm 16 ⟨1, 44100, 16⟩ = .ok ⟨⟨1, 44100, 16⟩, 16 / 8⟩ ∧
    read_fmt_chunk 16 (encode_fmt_fields 6 1 8000 16000 2 16 ++ []) =
      .err .Unsupported :=
  ⟨pcm_fmt_spec.2.2.1 ⟨1, 44100, 16⟩ (Or.inr rfl),
   pcm_fmt_spec.2.2.2 16 6 1 8000 16000 2 16 [] (by decide) (by decide)
     (by decide) (by decide) (by decide) (by decide) (by decide) (by decide)
     (by decide) (by decide) (by decide) (by decide) (by decide)⟩

/-- C3: a data chunk reached with no fmt chunk remembered fails with
`FormatError "missing fmt chunk"`; with a fmt chunk remembered the loop
stops at the data chunk, consuming none of its content bytes; and `new`
computes `num_samples = data_len / bytes_per_sample`, fails with
`FormatError "invalid data chunk length"` exactly when that count is not a
multiple of the channel count, and otherwise returns a state with
`samples_read = 0`. -/
theorem driver_data_chunk_spec :
    (∀ len tail, read_until_data none (dataTag ++ encodeU32 len ++ tail) =
        .err (.FormatError "missing fmt chunk")) ∧
    (∀ spec len tail,
      read_until_data (some spec) (dataTag ++ encodeU32 len ++ tail) =
        .ok (spec, len) tail) ∧
    (∀ s fl s1 spx dlen s2, read_wave_header s = .ok fl s1 →
      read_until_data none s1 = .ok (spx, dlen) s2 →
      spx.bytes_per_sample ≠ 0 → spx.spec.channels ≠ 0 →
      (dlen / spx.bytes_per_sample % spx.spec.channels ≠ 0 →
        WavReader_new s = .err (.FormatError "invalid data chunk length")) ∧
      (dlen / spx.bytes_per_sample % spx.spec.channels = 0 →
        WavReader_new s = .ok ⟨spx.spec, spx.bytes_per_sample,
          dlen / spx.bytes_per_sample, 0, s2⟩)) := by
  refine ⟨read_until_data_data_none, read_until_data_data_some, ?_⟩
  intro s fl s1 spx dlen s2 hw hd hbytes hch
  rw [WavReader_new_eval hw hd, if_neg hbytes, if_neg hch]
  constructor
  · intro hmod
    rw [if_pos hmod]
  · intro hmod
    rw [if_neg (by omega)]

/-- C3 witness: on the well-formed 16-bit mono stream, `new` returns the
state with `num_samples = 8 / 2` and `samples_read = 0`. -/
theorem driver_data_chunk_spec_witness :
    WavReader_new goodStream =
      .ok ⟨⟨1, 44100, 16⟩, 2, 8 / 2, 0, goodSamples⟩ :=
  (driver_data_chunk_spec.2.2 goodStream 36
      (fmtTag ++ encodeU32 16 ++ (fmtBody16 ++ (dataTag ++ encodeU32 8 ++ goodSamples)))
      ⟨⟨1, 44100, 16⟩, 2⟩ 8 goodSamples good_hw good_hd
      (by decide) (by decide)).2 (by decide)

/-- C4 (code bug): a fmt chunk whose channel-count field is zero makes
`read_fmt_chunk` evaluate `block_align / n_channels`, a `u16` division by
zero, which panics instead of returning a `StorageSpec` or an error. -/
theorem read_fmt_chunk_zero_channels_panics :
    read_fmt_chunk 16 (encode_fmt_fields 1 0 0 0 0 0) = .panic := by decide

/-- C5 (code bug): the extensible variant accepts an outer bits-per-sample
of zero and returns `bytes_per_sample = 0`, so the division
`data_len / bytes_per_sample` in `WavReader::new` is a division by zero and
panics. -/
theorem zero_bytes_per_sample_division_panics :
    read_fmt_chunk 40 (zeroBitsFmtBody ++ (dataTag ++ encodeU32 0 ++ ([] : List Nat))) =
      .ok ⟨⟨1, 1, 8⟩, 0⟩ (dataTag ++ encodeU32 0 ++ []) ∧
    WavReader_new zeroBitsStream = .panic := by
  have hf : read_fmt_chunk 40
      (zeroBitsFmtBody ++ (dataTag ++ encodeU32 0 ++ ([] : List Nat))) =
      .ok ⟨⟨1, 1, 8⟩, 0⟩ (dataTag ++ encodeU32 0 ++ []) := by decide
  refine ⟨hf, ?_⟩
  have hw : read_wave_header zeroBitsStream =
      .ok 0 (fmtTag ++ encodeU32 40 ++
        (zeroBitsFmtBody ++ (dataTag ++ encodeU32 0 ++ ([] : List Nat)))) := by
    unfold zeroBitsStream
    exact read_wave_header_encode 0 _
  have hd : read_until_data none
      (fmtTag ++ encodeU32 40 ++
        (zeroBitsFmtBody ++ (dataTag ++ encodeU32 0 ++ ([] : List Nat)))) =
      .ok (⟨⟨1, 1, 8⟩, 0⟩, 0) [] := by
    rw [read_until_data_fmt none 40 _ hf, read_until_data_data_some]
  rw [WavReader_new_eval hw hd]
  rfl

/-- C6: consuming the sample sequence yields exactly
`num_samples - samples_read` further items and then `none`; every yielded
item advances `samples_read` by exactly 1; `size_hint` reports exactly the
remaining count; and after exhaustion both a further `next` and a
reacquired sequence yield nothing, because `samples_read` persists in the
reader. -/
theorem sample_sequence_spec (r : WavReaderState)
    (h : r.samples_read ≤ r.num_samples) :
    (collectSamples r).1.length = r.num_samples - r.samples_read ∧
    (∀ x r2, WavSamples_next r = (some x, r2) →
      r2.samples_read = r.samples_read + 1) ∧
    (WavSamples_size_hint r).1 = r.num_samples - r.samples_read ∧
    WavSamples_next (collectSamples r).2 = (none, (collectSamples r).2) ∧
    (collectSamples ((collectSamples r).2)).1 = [] := by
  have hc : (collectSamples r).1.length = r.num_samples - r.samples_read ∧
      (collectSamples r).2.samples_read = r.num_samples ∧
      (collectSamples r).2.num_samples = r.num_samples :=
    collectAux_spec (r.num_samples - r.samples_read) r rfl h
  refine ⟨hc.1, ?_, rfl, ?_, ?_⟩
  · intro x r2 hx
    by_cases hlt : r.samples_read < r.num_samples
    · have hsr := (WavSamples_next_of_lt hlt).2.1
      rw [hx] at hsr
      exact hsr
    · rw [WavSamples_next_of_ge hlt] at hx
      injection hx with h1 h2
      exact Option.noConfusion h1
  · apply WavSamples_next_of_ge
    have h1 := hc.2.1
    have h2 := hc.2.2
    omega
  · show (collectAux ((collectSamples r).2.num_samples -
        (collectSamples r).2.samples_read) (collectSamples r).2).1 = []
    have h1 := hc.2.1
    have h2 := hc.2.2
    have hz : (collectSamples r).2.num_samples -
        (collectSamples r).2.samples_read = 0 := by omega
    rw [hz]
    rfl

/-- C6 witness: the fresh reader of the end-to-end example yields exactly
four items before exhaustion. -/
theorem sample_sequence_spec_witness :
    (collectSamples goodReader).1.length =
        goodReader.num_samples - goodReader.samples_read ∧
    (∀ x r2, WavSamples_next goodReader = (some x, r2) →
      r2.samples_read = goodReader.samples_read + 1) ∧
    (WavSamples_size_hint goodReader).1 =
        goodReader.num_samples - goodReader.samples_read ∧
    WavSamples_next (collectSamples goodReader).2 =
        (none, (collectSamples goodReader).2) ∧
    (collectSamples ((collectSamples goodReader).2)).1 = [] :=
  sample_sequence_spec goodReader (by decide)

/-- C7: for every reachable reader state (constructed by `new` and then
arbitrarily advanced by the sample sequence),
`channels * duration = len` and `len % channels = 0`. -/
theorem duration_len_spec (r : WavReaderState) (h : Reachable r) :
    r.spec.channels * WavReader_duration r = WavReader_len r ∧
    WavReader_len r % r.spec.channels = 0 := by
  obtain ⟨hch, hmod⟩ := reachable_channels h
  exact ⟨Nat.mul_div_cancel' (Nat.dvd_of_mod_eq_zero hmod), hmod⟩

/-- C7 witness: the relations hold on the reader of the end-to-end
example. -/
theorem duration_len_spec_witness :
    goodReader.spec.channels * WavReader_duration goodReader =
        WavReader_len goodReader ∧
    WavReader_len goodReader % goodReader.spec.channels = 0 :=
  duration_len_spec goodReader
    (Reachable.init goodStream goodReader WavReader_new_good)

/-- C9: along every reachable reader state,
`samples_read ≤ num_samples`; and the sample sequence's `next` — the only
operation that mutates the state — never decreases `samples_read`, never
changes `num_samples`, and preserves the bound. -/
theorem reader_state_invariant (r : WavReaderState) (h : Reachable r) :
    r.samples_read ≤ r.num_samples ∧
    (∀ o r2, WavSamples_next r = (o, r2) →
      r.samples_read ≤ r2.samples_read ∧ r2.num_samples = r.num_samples ∧
      r2.samples_read ≤ r2.num_samples) := by
  have hle := reachable_le h
  exact ⟨hle, WavSamples_next_mono hle⟩

/-- C9 witness: the invariant holds on the freshly constructed reader of
the end-to-end example. -/
theorem reader_state_invariant_witness :
    goodReader.samples_read ≤ goodReader.num_samples ∧
    (∀ o r2, WavSamples_next goodReader = (o, r2) →
      goodReader.samples_read ≤ r2.samples_read ∧
      r2.num_samples = goodReader.num_samples ∧
      r2.samples_read ≤ r2.num_samples) :=
  reader_state_invariant goodReader
    (Reachable.init goodStream goodReader WavReader_new_good)

/-- C10: `read_into` either fills the buffer with exactly `n` bytes,
accumulating across underlying reads that may each deliver fewer bytes than
requested, or fails with an I/O error; and it fails as soon as an
underlying read call delivers zero bytes before the buffer is full. -/
theorem read_into_spec (n : Nat) (σ : List (List Nat)) :
    (∀ bs σ2, read_into n σ = .ok bs σ2 → bs.length = n) ∧
    ((∃ bs σ2, read_into n σ = .ok bs σ2) ∨ read_into n σ = .err .IoError) ∧
    (0 < n → (read_step n σ).1.length = 0 → read_into n σ = .err .IoError) := by
  refine ⟨fun bs σ2 h => read_into_ok_length n σ bs σ2 h, ?_,
    fun h0 hs => read_into_stall h0 hs⟩
  rcases read_into_dichotomy n σ with ⟨bs, σ2, hok, _⟩ | herr
  · exact Or.inl ⟨bs, σ2, hok⟩
  · exact Or.inr herr

/-- C10 witness: a source that stalls after its first empty block makes a
2-byte `read_into` fail. -/
theorem read_into_spec_witness :
    read_into 2 [[], [5]] = .err .IoError :=
  (read_into_spec 2 [[], [5]]).2.2 (by decide) (by decide)

end Hound
